import Mathlib

/-!
Shallow embedding of the SEIR simulation engine of `src/sim.py`.

The numpy array `seir` (shape N×4, integer dtype) holds, for node `n` and
compartment column `c ∈ {S=0, E=1, I=2, R=3}`, either `0` (not in that
compartment) or a positive day counter (in that compartment since that many
steps), with `-1` used transiently inside a step to mark a fresh transition.
We model one row of that array as `Row` with four `Int` fields, a state as
`List Row`, the 0/1 (`uint8`) adjacency matrix as `List (List ℚ)`, and the
float probabilities of the source as rationals.  The implicit global numpy
random generator becomes an explicit argument: the per-step vector
`np.random.rand(len(matrix))` is a `List ℚ` supplied per step, and the
per-run seeding draw `np.random.randint` is a `List ℕ` argument.
-/

namespace IrnTui

/-- One row of the `seir` array: the S, E, I, R columns of a single node. -/
structure Row where
  s : Int
  e : Int
  i : Int
  r : Int
  deriving DecidableEq, Repr

instance : Inhabited Row := ⟨⟨0, 0, 0, 0⟩⟩

/-- The namedtuple `Disease(days_exposed, days_infectious, transmission_prob)`
of `src/sim.py` line 17.  Durations are Python ints, the probability a float
(modelled as a rational). -/
structure Disease where
  days_exposed : Int
  days_infectious : Int
  transmission_prob : ℚ
  deriving DecidableEq, Repr

/-- Lines 70-72 of `src/sim.py`, per node: `to_r_filter = seir[:, 2] > disease.days_infectious;
seir[to_r_filter, 3] = -1; seir[to_r_filter, 2] = 0`. -/
def ruleIR (days_infectious : Int) (n : Row) : Row :=
  if n.i > days_infectious then { n with r := -1, i := 0 } else n

/-- Lines 74-76 of `src/sim.py`, per node: `to_i_filter = seir[:, 1] > disease.days_exposed;
seir[to_i_filter, 2] = -1; seir[to_i_filter, 1] = 0` (the columns read here are
untouched by `ruleIR`, so applying the two row maps in sequence is exactly the
source's two sequential masked assignments). -/
def ruleEI (days_exposed : Int) (n : Row) : Row :=
  if n.e > days_exposed then { n with i := -1, e := 0 } else n

/-- Lines 78-79 of `src/sim.py`: `i_filter = seir[:, 2] > 0` (evaluated on the
state *after* the I→R and E→I masked assignments) and
`to_e_probs = 1 - np.prod((1 - (matrix * transmission_prob))[:, i_filter], axis=1)`.
The numpy product over the selected columns is the product over all columns of
the factor when selected and `1` otherwise. -/
def pExpose (matrix : List (List ℚ)) (transmission_prob : ℚ) (a2 : List Row)
    (idx : ℕ) : ℚ :=
  1 - (((matrix.getD idx []).zip a2).map
        (fun q => if q.2.i > 0 then 1 - transmission_prob * q.1 else 1)).prod

/-- Lines 84-85 of `src/sim.py` for a single array entry:
`seir[(seir > 0)] += 1` then `seir[(seir < 0)] = 1`. -/
def incVal (x : Int) : Int :=
  if x > 0 then x + 1 else if x < 0 then 1 else x

/-- Lines 84-85 of `src/sim.py` applied to one row (the masked updates act
entrywise on the whole array). -/
def incRow (n : Row) : Row :=
  ⟨incVal n.s, incVal n.e, incVal n.i, incVal n.r⟩

/-- One iteration of the loop body of `_simulate` (lines 66-86 of
`src/sim.py`): I→R, then E→I, then S→E (`to_e_filter = (seir[:, 0] > 0) &
(probs < to_e_probs)`; `seir[to_e_filter, 1] = -1; seir[to_e_filter, 0] = 0`),
then the day-counter update.  `probs` is this step's `np.random.rand(len(matrix))`. -/
def step (matrix : List (List ℚ)) (dis : Disease) (probs : List ℚ)
    (seir : List Row) : List Row :=
  let a1 := seir.map (ruleIR dis.days_infectious)
  let a2 := a1.map (ruleEI dis.days_exposed)
  let a3 := ((List.range a2.length).zip a2).map (fun q =>
    if q.2.s > 0 ∧ probs.getD q.1 0 < pExpose matrix dis.transmission_prob a2 q.1
    then { q.2 with e := -1, s := 0 } else q.2)
  a3.map incRow

/-- The state reached after `t` iterations of the loop of `_simulate`,
starting from `seir` (which the source copies with `np.copy` before the loop).
`probs t` is the random vector drawn at iteration `t`. -/
def simulateFrom (matrix : List (List ℚ)) (dis : Disease) (probs : ℕ → List ℚ)
    (seir : List Row) : ℕ → List Row
  | 0 => seir
  | t + 1 => step matrix dis (probs t) (simulateFrom matrix dis probs seir t)

/-- The `seirs` history array filled by the loop of `_simulate`:
`seirs[step] = seir` after iteration `step` completes, so entry `t` holds the
state after `t + 1` iterations. -/
def simHistory (matrix : List (List ℚ)) (dis : Disease) (probs : ℕ → List ℚ)
    (seir : List Row) (num_steps : ℕ) : List (List Row) :=
  (List.range num_steps).map (fun t => simulateFrom matrix dis probs seir (t + 1))

/-- The function `_simulate` of `src/sim.py` (lines 54-88).  `num_steps` is a
Python int; `np.zeros((num_steps, N, 4))` raises `ValueError` for a negative
`num_steps` before any step executes, which we model as `none`; otherwise the
call returns the full history. -/
def simulate (matrix : List (List ℚ)) (starting_seir : List Row)
    (num_steps : Int) (dis : Disease) (probs : ℕ → List ℚ) :
    Option (List (List Row)) :=
  if num_steps < 0 then none
  else some (simHistory matrix dis probs starting_seir num_steps.toNat)

/-- The function `_find_num_susceptible_nodes` of `src/sim.py` (lines 91-93):
`np.sum(seirs[:, State.S.value, -1] > 0)` with `seirs` of shape
`(num_steps, N, 4)`.  Axis 0 is the step, axis 1 the node, axis 2 the
compartment, so `seirs[:, 0, -1]` selects, for every step, node `0`'s last
compartment column (R = 3): the value is the number of steps at which node 0
is in the Removed compartment. -/
def find_num_susceptible_nodes (seirs : List (List Row)) : ℕ :=
  (seirs.filter (fun st => (st.getD 0 default).r > 0)).length

/-- Modelled from the spec: the statistic the spec (and the function's own
name) describe, the `count of Susceptible nodes at final step`: nodes whose
S column is positive in the last recorded snapshot. -/
def susceptibleAtFinal (seirs : List (List Row)) : ℕ :=
  ((seirs.getLastD []).filter (fun n => n.s > 0)).length

/-- The closure `init_func` built by `read_disease` (lines 128-137 of
`src/sim.py`): `to_infect = np.random.randint(num_nodes, size=num_to_infect)`
is the explicit `to_infect` argument (a list of `num_to_infect` draws, each
`< num_nodes`, drawn *with replacement*); `seir[to_infect, State.I.value] = 1`
and `seir[susceptible_nodes, State.S.value] = 1` where `susceptible_nodes`
are the nodes not occurring in `to_infect`. -/
def seirInit (num_nodes : ℕ) (to_infect : List ℕ) : List Row :=
  (List.range num_nodes).map (fun node =>
    if node ∈ to_infect then ⟨0, 0, 1, 0⟩ else ⟨1, 0, 0, 0⟩)

/-- The function `run_sim_batch` of `src/sim.py` (lines 43-51), with the file
reads replaced by their results (`matrix`, `dis`, and the single seeding draw
`to_infect` consumed by the one call `init_func(matrix.shape[0])` on line 47)
and the global random generator by the per-run, per-step vectors
`stepProbs r t`.  Each of the `num_sims` simulations starts from the one
`initial_seir` computed before the loop.  A negative `num_steps` makes every
`_simulate` call raise, modelled as `none`. -/
def run_sim_batch (matrix : List (List ℚ)) (dis : Disease) (num_steps : Int)
    (num_sims : ℕ) (to_infect : List ℕ) (stepProbs : ℕ → ℕ → List ℚ) :
    Option ℚ :=
  if num_steps < 0 then none
  else
    let initial_seir := seirInit matrix.length to_infect
    let num_susceptible := (List.range num_sims).map (fun r =>
      (find_num_susceptible_nodes
        (simHistory matrix dis (stepProbs r) initial_seir num_steps.toNat) : ℚ))
    let proportion_susceptible := num_susceptible.map (fun x => x / (matrix.length : ℚ))
    some (proportion_susceptible.sum / (num_sims : ℚ))

/-- The starting states of the `num_sims` runs of `run_sim_batch` (lines 47-49
of `src/sim.py`): `initial_seir = init_func(matrix.shape[0])` executes the
seeding procedure exactly once — consuming only the first draw `seedDraws 0`
of the seeding random stream — and every `_simulate` call in the generator is
passed that same `initial_seir`. -/
def run_sim_batch_starts (num_nodes num_sims : ℕ) (seedDraws : ℕ → List ℕ) :
    List (List Row) :=
  let initial_seir := seirInit num_nodes (seedDraws 0)
  (List.range num_sims).map (fun _ => initial_seir)

/-- An f-string `f'{node} {code}'` as in lines 104-107 of `src/sim.py`. -/
def nodeLine (node : ℕ) (code : ℕ) : String :=
  toString node ++ " " ++ toString code

/-- The node indices selected by `np.where(seirs[step, :, c] > 0)[0]` (lines
99-102 of `src/sim.py`): the nodes whose column `c` is positive, in ascending
order. -/
def groupNodes (st : List Row) (col : Row → Int) : List ℕ :=
  (List.range st.length).filter (fun n => col (st.getD n default) > 0)

/-- Python's `'\n'.join`: the list elements separated (not terminated) by a
newline. -/
def joinNL : List String → String
  | [] => ""
  | [x] => x
  | x :: y :: rest => x ++ "\n" ++ joinNL (y :: rest)

/-- Lines 104-115 of `src/sim.py` for one compartment group: the joined lines
are appended, followed by a newline, only when the joined string is nonempty
(`if len(s_lines) > 0`). -/
def groupChunk (lines : List String) : String :=
  let g := joinNL lines
  if g.length > 0 then g ++ "\n" else ""

/-- The loop body of `make_visualization_str` for one step (lines 99-117 of
`src/sim.py`): the four group chunks in S, E, I, R order followed by the extra
newline that separates steps. -/
def stepBlockStr (st : List Row) : String :=
  groupChunk ((groupNodes st (fun n => n.s)).map (fun n => nodeLine n 0)) ++
  groupChunk ((groupNodes st (fun n => n.e)).map (fun n => nodeLine n 1)) ++
  groupChunk ((groupNodes st (fun n => n.i)).map (fun n => nodeLine n 2)) ++
  groupChunk ((groupNodes st (fun n => n.r)).map (fun n => nodeLine n 3)) ++
  "\n"

/-- The function `make_visualization_str` of `src/sim.py` (lines 96-119):
the concatenation of the per-step blocks followed by the sentinel `'end\n'`. -/
def make_visualization_str (seirs : List (List Row)) : String :=
  String.join (seirs.map stepBlockStr) ++ "end\n"

/-- Modelled from the spec: the line sequence §4.4 describes for one step —
one `<nodeIndex> <compartmentCode>` line per node, all Susceptible nodes
first, then Exposed, then Infectious, then Removed (codes S=0, E=1, I=2, R=3),
an empty group contributing no lines, and a blank line closing the step. -/
def specStepLines (st : List Row) : List String :=
  (groupNodes st (fun n => n.s)).map (fun n => nodeLine n 0) ++
  (groupNodes st (fun n => n.e)).map (fun n => nodeLine n 1) ++
  (groupNodes st (fun n => n.i)).map (fun n => nodeLine n 2) ++
  (groupNodes st (fun n => n.r)).map (fun n => nodeLine n 3) ++
  [""]

/-- A sequence of output lines rendered as text: every line, the last one
included, is followed by a newline. -/
def linesToStr (l : List String) : String :=
  String.join (l.map (fun x => x ++ "\n"))

/-- Modelled from the spec: the whole serialized history of §4.4 — the lines
of every step in order, then the single terminating sentinel line `end`. -/
def specVisStr (seirs : List (List Row)) : String :=
  linesToStr ((seirs.map specStepLines).flatten ++ ["end"])

/-- A row encoding a valid `PopulationState` entry of the spec's data model
(§3): the node is in exactly one of the four compartments, with a positive day
counter there and `0` in the other three columns. -/
def wellFormedRow (n : Row) : Prop :=
  (n.s > 0 ∧ n.e = 0 ∧ n.i = 0 ∧ n.r = 0) ∨
  (n.s = 0 ∧ n.e > 0 ∧ n.i = 0 ∧ n.r = 0) ∨
  (n.s = 0 ∧ n.e = 0 ∧ n.i > 0 ∧ n.r = 0) ∨
  (n.s = 0 ∧ n.e = 0 ∧ n.i = 0 ∧ n.r > 0)

instance (n : Row) : Decidable (wellFormedRow n) := by
  unfold wellFormedRow; infer_instance

/-- A store of numpy arrays, used to model the in-place mutation of
`_simulate`: each allocated array lives at an address, `np.copy` and
`np.zeros` allocate fresh addresses, and the masked assignments of the loop
write to the address of the array they mutate. -/
structure Heap where
  data : ℕ → List Row
  next : ℕ

/-- An in-place update of the array at address `a`. -/
def heapWrite (h : Heap) (a : ℕ) (v : List Row) : Heap :=
  ⟨fun b => if b = a then v else h.data b, h.next⟩

/-- Allocation of a fresh array holding `v`, returning its address. -/
def heapAlloc (h : Heap) (v : List Row) : ℕ × Heap :=
  (h.next, ⟨fun b => if b = h.next then v else h.data b, h.next + 1⟩)

/-- The `np.zeros((num_steps, N, 4))` allocation of line 63 of `src/sim.py`,
viewed as one fresh array per step slice `seirs[t]`, each initialised to `v`
(the all-zero N×4 array); returns the slice addresses in step order. -/
def allocSlices (h : Heap) (v : List Row) : ℕ → List ℕ × Heap
  | 0 => ([], h)
  | n + 1 =>
    let p := heapAlloc h v
    let q := allocSlices p.2 v n
    (p.1 :: q.1, q.2)

/-- The loop of `_simulate` (lines 66-86 of `src/sim.py`) over the store: at
iteration `t` the masked assignments mutate only the array at `seirAddr`,
leaving it holding `step` of its previous contents, and then
`seirs[step, :, :] = seir` copies the current contents of `seirAddr` into the
slice array of this step. -/
def simLoop (matrix : List (List ℚ)) (dis : Disease) (probs : ℕ → List ℚ)
    (seirAddr : ℕ) : ℕ → List ℕ → Heap → Heap
  | _, [], h => h
  | t, sa :: rest, h =>
    let h1 := heapWrite h seirAddr (step matrix dis (probs t) (h.data seirAddr))
    let h2 := heapWrite h1 sa (h1.data seirAddr)
    simLoop matrix dis probs seirAddr (t + 1) rest h2

/-- The function `_simulate` of `src/sim.py` over the store, for
`num_steps ≥ 0`: line 63 allocates the `num_steps` history slices, line 65
(`seir = np.copy(starting_seir)`) allocates a fresh array holding a copy of
the caller's array at `startAddr`, and the loop runs on those addresses.
Returns the final store and the slice addresses of the returned history. -/
def simulateMem (matrix : List (List ℚ)) (dis : Disease) (probs : ℕ → List ℚ)
    (h0 : Heap) (startAddr : ℕ) (num_steps : ℕ) : Heap × List ℕ :=
  let p := allocSlices h0 (List.replicate (h0.data startAddr).length ⟨0, 0, 0, 0⟩) num_steps
  let q := heapAlloc p.2 (p.2.data startAddr)
  (simLoop matrix dis probs q.1 0 p.1 q.2, p.1)

/-- The compartment part of one step for a single node, before the exposure
rule: I→R then E→I. -/
def nodeA (dis : Disease) (row : Row) : Row :=
  ruleEI dis.days_exposed (ruleIR dis.days_infectious row)

theorem step_length (matrix : List (List ℚ)) (dis : Disease) (probs : List ℚ)
    (seir : List Row) : (step matrix dis probs seir).length = seir.length := by
  simp [step]

theorem simulateFrom_length (matrix : List (List ℚ)) (dis : Disease)
    (probs : ℕ → List ℚ) (seir : List Row) (t : ℕ) :
    (simulateFrom matrix dis probs seir t).length = seir.length := by
  induction t with
  | zero => rfl
  | succ t ih => rw [simulateFrom, step_length, ih]

theorem step_getD (matrix : List (List ℚ)) (dis : Disease) (probs : List ℚ)
    (seir : List Row) (n : ℕ) (hn : n < seir.length) :
    (step matrix dis probs seir).getD n default =
      (if (nodeA dis (seir.getD n default)).s > 0 ∧
          probs.getD n 0 < pExpose matrix dis.transmission_prob
            ((seir.map (ruleIR dis.days_infectious)).map (ruleEI dis.days_exposed)) n
       then incRow { nodeA dis (seir.getD n default) with e := -1, s := 0 }
       else incRow (nodeA dis (seir.getD n default))) := by
  have h3 : n < (step matrix dis probs seir).length := by rw [step_length]; exact hn
  rw [List.getD_eq_getElem _ _ h3, List.getD_eq_getElem _ _ hn]
  simp only [step, List.getElem_map, List.getElem_zip, List.getElem_range, nodeA]
  split
  · rfl
  · rfl

theorem step_getD_nonS (matrix : List (List ℚ)) (dis : Disease) (probs : List ℚ)
    (seir : List Row) (n : ℕ) (hn : n < seir.length)
    (hs : ¬ (seir.getD n default).s > 0) :
    (step matrix dis probs seir).getD n default =
      incRow (nodeA dis (seir.getD n default)) := by
  have hA : (nodeA dis (seir.getD n default)).s = (seir.getD n default).s := by
    unfold nodeA ruleIR ruleEI
    split <;> split <;> rfl
  rw [step_getD matrix dis probs seir n hn]
  rw [if_neg]
  intro hcon
  exact hs (hA ▸ hcon.1)

theorem step_wf (matrix : List (List ℚ)) (dis : Disease) (probs : List ℚ)
    (seir : List Row) (hde : 0 ≤ dis.days_exposed) (hdi : 0 ≤ dis.days_infectious)
    (hw : ∀ row ∈ seir, wellFormedRow row) :
    ∀ row ∈ step matrix dis probs seir, wellFormedRow row := by
  intro row hrow
  obtain ⟨n, hn, hEq⟩ := List.mem_iff_getElem.mp hrow
  rw [step_length] at hn
  have hEq' : (step matrix dis probs seir).getD n default = row := by
    rw [List.getD_eq_getElem _ _ (by rw [step_length]; exact hn)]; exact hEq
  have hrow0 : wellFormedRow (seir.getD n default) := by
    apply hw
    rw [List.getD_eq_getElem _ _ hn]
    exact List.getElem_mem hn
  rw [step_getD matrix dis probs seir n hn] at hEq'
  subst hEq'
  have hAs : (nodeA dis (seir.getD n default)).s = (seir.getD n default).s := by
    unfold nodeA ruleIR ruleEI
    split <;> split <;> rfl
  set row0 := seir.getD n default with hrow0def
  rcases hrow0 with ⟨h1, h2, h3, h4⟩ | ⟨h1, h2, h3, h4⟩ | ⟨h1, h2, h3, h4⟩ | ⟨h1, h2, h3, h4⟩
  · -- Susceptible: the compartment rules leave the row alone; the exposure
    -- rule may move it to Exposed.
    have hA : nodeA dis row0 = row0 := by
      unfold nodeA ruleIR
      rw [if_neg (by omega)]
      unfold ruleEI
      rw [if_neg (by omega)]
    rw [hA]
    split
    · simp only [incRow, incVal, wellFormedRow, h2, h3, h4]
      split_ifs <;> omega
    · simp only [incRow, incVal, wellFormedRow, h2, h3, h4]
      split_ifs <;> omega
  · -- Exposed: either stays Exposed or becomes Infectious with day marker -1.
    rw [if_neg (by rw [hAs]; omega)]
    have hA : nodeA dis row0 = if row0.e > dis.days_exposed
        then { row0 with i := -1, e := 0 } else row0 := by
      unfold nodeA ruleIR
      rw [if_neg (by omega)]
      unfold ruleEI
      rfl
    rw [hA]
    split
    · simp only [incRow, incVal, wellFormedRow, h1, h4]
      split_ifs <;> omega
    · simp only [incRow, incVal, wellFormedRow, h1, h3, h4]
      split_ifs <;> omega
  · -- Infectious: either stays Infectious or becomes Removed with marker -1.
    rw [if_neg (by rw [hAs]; omega)]
    have hA : nodeA dis row0 = if row0.i > dis.days_infectious
        then { row0 with r := -1, i := 0 } else row0 := by
      unfold nodeA ruleIR
      by_cases hi : row0.i > dis.days_infectious
      · rw [if_pos hi]
        unfold ruleEI
        rw [if_neg (by show ¬ row0.e > dis.days_exposed; omega)]
      · rw [if_neg hi]
        unfold ruleEI
        rw [if_neg (by omega)]
    rw [hA]
    split
    · simp only [incRow, incVal, wellFormedRow, h1, h2]
      split_ifs <;> omega
    · simp only [incRow, incVal, wellFormedRow, h1, h2, h4]
      split_ifs <;> omega
  · -- Removed: untouched by every rule, the day counter advances.
    rw [if_neg (by rw [hAs]; omega)]
    have hA : nodeA dis row0 = row0 := by
      unfold nodeA ruleIR
      rw [if_neg (by omega)]
      unfold ruleEI
      rw [if_neg (by omega)]
    rw [hA]
    simp only [incRow, incVal, wellFormedRow, h1, h2, h3]
    split_ifs <;> omega

theorem simulateFrom_wf (matrix : List (List ℚ)) (dis : Disease)
    (probs : ℕ → List ℚ) (seir : List Row) (t : ℕ)
    (hde : 0 ≤ dis.days_exposed) (hdi : 0 ≤ dis.days_infectious)
    (hw : ∀ row ∈ seir, wellFormedRow row) :
    ∀ row ∈ simulateFrom matrix dis probs seir t, wellFormedRow row := by
  induction t with
  | zero => exact hw
  | succ t ih => exact step_wf matrix dis (probs t) _ hde hdi ih

theorem simulateFrom_add_one (matrix : List (List ℚ)) (dis : Disease)
    (probs : ℕ → List ℚ) (seir : List Row) (t m : ℕ) :
    simulateFrom matrix dis probs seir (t + (m + 1)) =
      step matrix dis (probs (t + m)) (simulateFrom matrix dis probs seir (t + m)) := by
  rw [show t + (m + 1) = (t + m) + 1 from rfl]
  rfl

theorem step_removed_getD (matrix : List (List ℚ)) (dis : Disease) (probs : List ℚ)
    (seir : List Row) (n : ℕ) (hde : 0 ≤ dis.days_exposed)
    (hdi : 0 ≤ dis.days_infectious) (hn : n < seir.length)
    (hwf : wellFormedRow (seir.getD n default))
    (hr : (seir.getD n default).r > 0) :
    (step matrix dis probs seir).getD n default =
      { seir.getD n default with r := (seir.getD n default).r + 1 } := by
  have h0 : (seir.getD n default).s = 0 ∧ (seir.getD n default).e = 0 ∧
      (seir.getD n default).i = 0 := by
    rcases hwf with ⟨a, b, c, d⟩ | ⟨a, b, c, d⟩ | ⟨a, b, c, d⟩ | ⟨a, b, c, d⟩ <;> omega
  rw [step_getD_nonS matrix dis probs seir n hn (by omega)]
  have hA : nodeA dis (seir.getD n default) = seir.getD n default := by
    unfold nodeA ruleIR
    rw [if_neg (by omega)]
    unfold ruleEI
    rw [if_neg (by omega)]
  rw [hA]
  simp only [incRow, incVal]
  split_ifs <;> (simp only [Row.mk.injEq]; all_goals omega)

/-- C5: compartment exclusivity is an invariant of the step engine — from an
initial state whose nodes each sit in exactly one of {S,E,I,R} (positive day
counter in one column, zero elsewhere), every row of every recorded history
snapshot is again in exactly one compartment, for any adjacency matrix, any
valid disease (durations ≥ 0) and any random draws. -/
theorem compartment_exclusivity (matrix : List (List ℚ)) (dis : Disease)
    (probs : ℕ → List ℚ) (seir : List Row) (T : ℕ)
    (hde : 0 ≤ dis.days_exposed) (hdi : 0 ≤ dis.days_infectious)
    (hw : ∀ row ∈ seir, wellFormedRow row) (st : List Row)
    (hst : st ∈ simHistory matrix dis probs seir T) (row : Row)
    (hrow : row ∈ st) : wellFormedRow row := by
  obtain ⟨t, _, hEq⟩ := List.mem_map.mp hst
  exact simulateFrom_wf matrix dis probs seir (t + 1) hde hdi hw row (hEq ▸ hrow)

theorem compartment_exclusivity_witness :
    wellFormedRow ⟨0, 2, 0, 0⟩ :=
  compartment_exclusivity [[0]] ⟨1, 0, 0⟩ (fun _ => [0]) [⟨0, 1, 0, 0⟩] 1
    (by decide) (by decide) (by decide) [⟨0, 2, 0, 0⟩] (by decide)
    ⟨0, 2, 0, 0⟩ (by decide)

/-- C6: Removed is terminal — in a run from a valid initial state (each node
in exactly one compartment) with a valid disease, once node `n` has a positive
Removed counter after `t` steps, it still has one after `t + m` steps, for
every `m`. -/
theorem removed_terminal (matrix : List (List ℚ)) (dis : Disease)
    (probs : ℕ → List ℚ) (seir : List Row)
    (hde : 0 ≤ dis.days_exposed) (hdi : 0 ≤ dis.days_infectious)
    (hw : ∀ row ∈ seir, wellFormedRow row) (n t m : ℕ)
    (hr : ((simulateFrom matrix dis probs seir t).getD n default).r > 0) :
    ((simulateFrom matrix dis probs seir (t + m)).getD n default).r > 0 := by
  induction m with
  | zero => exact hr
  | succ m ih =>
    rw [simulateFrom_add_one]
    by_cases hn : n < (simulateFrom matrix dis probs seir (t + m)).length
    · have hwf : wellFormedRow ((simulateFrom matrix dis probs seir (t + m)).getD n default) := by
        apply simulateFrom_wf matrix dis probs seir (t + m) hde hdi hw
        rw [List.getD_eq_getElem _ _ hn]
        exact List.getElem_mem hn
      rw [step_removed_getD matrix dis (probs (t + m)) _ n hde hdi hn hwf ih]
      show ((simulateFrom matrix dis probs seir (t + m)).getD n default).r + 1 > 0
      omega
    · exfalso
      rw [List.getD_eq_default _ _ (by omega)] at ih
      exact absurd ih (by decide)

theorem removed_terminal_witness :
    ((simulateFrom [[0]] ⟨0, 0, 0⟩ (fun _ => [0]) [⟨0, 0, 0, 1⟩] (0 + 2)).getD 0 default).r > 0 :=
  removed_terminal [[0]] ⟨0, 0, 0⟩ (fun _ => [0]) [⟨0, 0, 0, 1⟩]
    (by decide) (by decide) (by decide) 0 0 2 (by decide)

theorem incRow_mk (a b c d : Int) :
    incRow ⟨a, b, c, d⟩ = ⟨incVal a, incVal b, incVal c, incVal d⟩ := rfl

theorem incVal_zero : incVal 0 = 0 := rfl

theorem incVal_of_pos (x : Int) (h : 0 < x) : incVal x = x + 1 := by
  unfold incVal; rw [if_pos h]

theorem dwell_I_steps (matrix : List (List ℚ)) (dis : Disease) (probs : ℕ → List ℚ)
    (seir : List Row) (n : ℕ) (hde : 0 ≤ dis.days_exposed)
    (hn : n < seir.length) (hrow : seir.getD n default = ⟨0, 0, 1, 0⟩) :
    ∀ j : ℕ, (j : ℤ) ≤ dis.days_infectious →
      (simulateFrom matrix dis probs seir j).getD n default = ⟨0, 0, (j : ℤ) + 1, 0⟩ := by
  intro j
  induction j with
  | zero => intro _; simpa using hrow
  | succ j ih =>
    intro hj
    have hprev := ih (by push_cast at hj; omega)
    have hlen : n < (simulateFrom matrix dis probs seir j).length := by
      rw [simulateFrom_length]; exact hn
    rw [simulateFrom]
    rw [step_getD_nonS _ dis _ _ n hlen (by rw [hprev]; show ¬ ((0 : ℤ) > 0); decide)]
    rw [hprev]
    unfold nodeA ruleIR
    rw [if_neg (by show ¬ ((j : ℤ) + 1 > dis.days_infectious); push_cast at hj; omega)]
    unfold ruleEI
    rw [if_neg (by show ¬ ((0 : ℤ) > dis.days_exposed); omega)]
    rw [incRow_mk, incVal_zero, incVal_of_pos _ (by omega)]
    simp only [Row.mk.injEq]
    refine ⟨trivial, trivial, ?_, trivial⟩
    push_cast
    ring

theorem dwell_I_exit (matrix : List (List ℚ)) (dis : Disease) (probs : ℕ → List ℚ)
    (seir : List Row) (n : ℕ) (hde : 0 ≤ dis.days_exposed)
    (hdi : 0 ≤ dis.days_infectious)
    (hn : n < seir.length) (hrow : seir.getD n default = ⟨0, 0, 1, 0⟩) :
    (simulateFrom matrix dis probs seir (dis.days_infectious.toNat + 1)).getD n default
      = ⟨0, 0, 0, 1⟩ := by
  have hmid := dwell_I_steps matrix dis probs seir n hde hn hrow
    dis.days_infectious.toNat (by omega)
  have hlen : n < (simulateFrom matrix dis probs seir dis.days_infectious.toNat).length := by
    rw [simulateFrom_length]; exact hn
  rw [simulateFrom]
  rw [step_getD_nonS _ dis _ _ n hlen (by rw [hmid]; show ¬ ((0 : ℤ) > 0); decide)]
  rw [hmid]
  unfold nodeA ruleIR
  rw [if_pos (by
        show (dis.days_infectious.toNat : ℤ) + 1 > dis.days_infectious
        omega)]
  unfold ruleEI
  rw [if_neg (by show ¬ ((0 : ℤ) > dis.days_exposed); omega)]
  show incRow ⟨0, 0, 0, -1⟩ = ⟨0, 0, 0, 1⟩
  rfl

theorem dwell_E_steps (matrix : List (List ℚ)) (dis : Disease) (probs : ℕ → List ℚ)
    (seir : List Row) (n : ℕ) (hdi : 0 ≤ dis.days_infectious)
    (hn : n < seir.length) (hrow : seir.getD n default = ⟨0, 1, 0, 0⟩) :
    ∀ j : ℕ, (j : ℤ) ≤ dis.days_exposed →
      (simulateFrom matrix dis probs seir j).getD n default = ⟨0, (j : ℤ) + 1, 0, 0⟩ := by
  intro j
  induction j with
  | zero => intro _; simpa using hrow
  | succ j ih =>
    intro hj
    have hprev := ih (by push_cast at hj; omega)
    have hlen : n < (simulateFrom matrix dis probs seir j).length := by
      rw [simulateFrom_length]; exact hn
    rw [simulateFrom]
    rw [step_getD_nonS _ dis _ _ n hlen (by rw [hprev]; show ¬ ((0 : ℤ) > 0); decide)]
    rw [hprev]
    unfold nodeA ruleIR
    rw [if_neg (by show ¬ ((0 : ℤ) > dis.days_infectious); omega)]
    unfold ruleEI
    rw [if_neg (by show ¬ ((j : ℤ) + 1 > dis.days_exposed); push_cast at hj; omega)]
    rw [incRow_mk, incVal_zero, incVal_of_pos _ (by omega)]
    simp only [Row.mk.injEq]
    refine ⟨trivial, ?_, trivial, trivial⟩
    push_cast
    ring

theorem dwell_E_exit (matrix : List (List ℚ)) (dis : Disease) (probs : ℕ → List ℚ)
    (seir : List Row) (n : ℕ) (hde : 0 ≤ dis.days_exposed)
    (hdi : 0 ≤ dis.days_infectious)
    (hn : n < seir.length) (hrow : seir.getD n default = ⟨0, 1, 0, 0⟩) :
    (simulateFrom matrix dis probs seir (dis.days_exposed.toNat + 1)).getD n default
      = ⟨0, 0, 1, 0⟩ := by
  have hmid := dwell_E_steps matrix dis probs seir n hdi hn hrow
    dis.days_exposed.toNat (by omega)
  have hlen : n < (simulateFrom matrix dis probs seir dis.days_exposed.toNat).length := by
    rw [simulateFrom_length]; exact hn
  rw [simulateFrom]
  rw [step_getD_nonS _ dis _ _ n hlen (by rw [hmid]; show ¬ ((0 : ℤ) > 0); decide)]
  rw [hmid]
  unfold nodeA ruleIR
  rw [if_neg (by show ¬ ((0 : ℤ) > dis.days_infectious); omega)]
  unfold ruleEI
  rw [if_pos (by
        show (dis.days_exposed.toNat : ℤ) + 1 > dis.days_exposed
        omega)]
  show incRow ⟨0, 0, -1, 0⟩ = ⟨0, 0, 1, 0⟩
  rfl

/-- C4: deterministic dwell time — a node whose row is `⟨0,0,1,0⟩` (it entered
Infectious on the previous step, day 1) stays Infectious with day counter
`j + 1` after `j` further steps for every `j ≤ infectiousDuration` (`d + 1`
Infectious snapshots in total, because the exit test is the strict
`daysInCompartment > infectiousDuration`), and its row is `⟨0,0,0,1⟩`
(Removed, day 1) after exactly `infectiousDuration + 1` further steps; the
same `d + 1` dwell holds for an Exposed node `⟨0,1,0,0⟩` with
`exposedDuration`, which then becomes Infectious. -/
theorem dwell_time (matrix : List (List ℚ)) (dis : Disease) (probs : ℕ → List ℚ)
    (seir : List Row) (n j : ℕ) (hde : 0 ≤ dis.days_exposed)
    (hdi : 0 ≤ dis.days_infectious) (hn : n < seir.length) :
    (seir.getD n default = ⟨0, 0, 1, 0⟩ →
      ((j : ℤ) ≤ dis.days_infectious →
        (simulateFrom matrix dis probs seir j).getD n default = ⟨0, 0, (j : ℤ) + 1, 0⟩) ∧
      (simulateFrom matrix dis probs seir (dis.days_infectious.toNat + 1)).getD n default
        = ⟨0, 0, 0, 1⟩) ∧
    (seir.getD n default = ⟨0, 1, 0, 0⟩ →
      ((j : ℤ) ≤ dis.days_exposed →
        (simulateFrom matrix dis probs seir j).getD n default = ⟨0, (j : ℤ) + 1, 0, 0⟩) ∧
      (simulateFrom matrix dis probs seir (dis.days_exposed.toNat + 1)).getD n default
        = ⟨0, 0, 1, 0⟩) := by
  constructor
  · intro hrow
    exact ⟨dwell_I_steps matrix dis probs seir n hde hn hrow j,
      dwell_I_exit matrix dis probs seir n hde hdi hn hrow⟩
  · intro hrow
    exact ⟨dwell_E_steps matrix dis probs seir n hdi hn hrow j,
      dwell_E_exit matrix dis probs seir n hde hdi hn hrow⟩

theorem dwell_time_witness :
    (simulateFrom [[0]] ⟨0, 1, 0⟩ (fun _ => [0]) [⟨0, 0, 1, 0⟩] 1).getD 0 default
      = ⟨0, 0, 2, 0⟩ ∧
    (simulateFrom [[0]] ⟨0, 1, 0⟩ (fun _ => [0]) [⟨0, 0, 1, 0⟩] 2).getD 0 default
      = ⟨0, 0, 0, 1⟩ :=
  ⟨((dwell_time [[0]] ⟨0, 1, 0⟩ (fun _ => [0]) [⟨0, 0, 1, 0⟩] 0 1
      (by decide) (by decide) (by decide)).1 (by decide)).1 (by decide),
   ((dwell_time [[0]] ⟨0, 1, 0⟩ (fun _ => [0]) [⟨0, 0, 1, 0⟩] 0 1
      (by decide) (by decide) (by decide)).1 (by decide)).2⟩

theorem a2_i_pos_iff (dis : Disease) (hde : 0 ≤ dis.days_exposed) (row : Row)
    (hw : wellFormedRow row) :
    (ruleEI dis.days_exposed (ruleIR dis.days_infectious row)).i > 0 ↔
      (0 < row.i ∧ row.i ≤ dis.days_infectious) := by
  obtain ⟨a, b, c, d⟩ := row
  simp only [ruleIR, ruleEI, wellFormedRow] at hw ⊢
  split_ifs at * <;> simp_all <;> omega

/-- Modelled from the claim's words: the exposure probability as C2 states it,
computed over the set of neighbors that were Infectious at the start of the
step (pre-step compartments), each such neighbor contributing its factor
`1 - transmissionProbability * adjacency[idx][j]` even if it moves to Removed
within the same step. -/
def claimPExpose (matrix : List (List ℚ)) (transmission_prob : ℚ)
    (seir : List Row) (idx : ℕ) : ℚ :=
  1 - (((matrix.getD idx []).zip seir).map
        (fun q => if q.2.i > 0 then 1 - transmission_prob * q.1 else 1)).prod

/-- C2 (amended): the probability the step engine compares against node
`idx`'s uniform draw is `1 − Π (1 − transmissionProbability·adjacency[idx][j])`
over exactly those neighbors `j` that were Infectious at the start of the step
*and* have day count `≤ infectiousDuration` — i.e. the pre-step Infectious
nodes that do not move to Removed during this same step.  (A neighbor removed
this step contributes no factor, refuting the claim's stronger reading.) -/
theorem pExpose_uses_surviving_infectious (matrix : List (List ℚ)) (dis : Disease)
    (seir : List Row) (idx : ℕ) (hde : 0 ≤ dis.days_exposed)
    (hw : ∀ row ∈ seir, wellFormedRow row) :
    pExpose matrix dis.transmission_prob
        ((seir.map (ruleIR dis.days_infectious)).map (ruleEI dis.days_exposed)) idx =
      1 - (((matrix.getD idx []).zip seir).map
        (fun q => if 0 < q.2.i ∧ q.2.i ≤ dis.days_infectious
          then 1 - dis.transmission_prob * q.1 else 1)).prod := by
  unfold pExpose
  rw [List.map_map, List.zip_map_right, List.map_map]
  congr 2
  apply List.map_congr_left
  intro q hq
  have hrow : q.2 ∈ seir := (List.of_mem_zip hq).2
  have hiff := a2_i_pos_iff dis hde q.2 (hw q.2 hrow)
  simp only [Function.comp, Prod.map_fst, Prod.map_snd, id]
  split_ifs with h1 h2 h2
  · rfl
  · exact absurd (hiff.mp h1) h2
  · exact absurd (hiff.mpr h2) h1
  · rfl

theorem pExpose_uses_surviving_infectious_witness :
    pExpose [[0, 1], [1, 0]] (1 : ℚ)
        (([⟨0, 0, 1, 0⟩, ⟨1, 0, 0, 0⟩].map (ruleIR 0)).map (ruleEI 0)) 1 =
      1 - (((([[0, 1], [1, 0]] : List (List ℚ)).getD 1 []).zip
          ([⟨0, 0, 1, 0⟩, ⟨1, 0, 0, 0⟩] : List Row)).map
        (fun q => if 0 < q.2.i ∧ q.2.i ≤ (0 : ℤ) then 1 - (1 : ℚ) * q.1 else 1)).prod :=
  pExpose_uses_surviving_infectious [[0, 1], [1, 0]] ⟨0, 0, 1⟩
    [⟨0, 0, 1, 0⟩, ⟨1, 0, 0, 0⟩] 1 (by decide) (by decide)

/-- C2 counterexample: two nodes joined by an edge, transmission probability
1, `infectiousDuration = 0`, node 0 Infectious on day 1, node 1 Susceptible.
During the step node 0 moves to Removed, and the probability actually compared
for node 1 is `0`, not the `1` the claim's pre-step formula yields — node 1
stays Susceptible (`⟨2,0,0,0⟩`) even though its draw `1/2` is below the
claimed probability. -/
theorem pExpose_counterexample :
    pExpose [[0, 1], [1, 0]] 1
        (([⟨0, 0, 1, 0⟩, ⟨1, 0, 0, 0⟩].map (ruleIR 0)).map (ruleEI 0)) 1 = 0 ∧
    claimPExpose [[0, 1], [1, 0]] 1 [⟨0, 0, 1, 0⟩, ⟨1, 0, 0, 0⟩] 1 = 1 ∧
    (step [[0, 1], [1, 0]] ⟨0, 0, 1⟩ [1/2, 1/2] [⟨0, 0, 1, 0⟩, ⟨1, 0, 0, 0⟩]).getD 1 default
      = ⟨2, 0, 0, 0⟩ := by
  refine ⟨?_, ?_, ?_⟩ <;>
    norm_num [pExpose, claimPExpose, step, ruleIR, ruleEI, incRow, incVal,
      show List.range 2 = [0, 1] from rfl]

/-- C3 counterexample: a batch of 2 runs over 2 nodes whose seeding stream
would draw node 0 for the first seeding and node 1 for the second.  Both runs
start from the same initial state (the one built from the first draw), and run
1's start differs from what its own fresh draw `[1]` would have produced —
refuting the claim that the seeding is re-executed with fresh randomness once
per run. -/
theorem batch_seeding_counterexample :
    (run_sim_batch_starts 2 2 (fun k => if k = 0 then [0] else [1])).getD 0 [] =
      (run_sim_batch_starts 2 2 (fun k => if k = 0 then [0] else [1])).getD 1 [] ∧
    (run_sim_batch_starts 2 2 (fun k => if k = 0 then [0] else [1])).getD 1 [] ≠
      seirInit 2 [1] := by
  decide

/-- C3 (amended): all `num_sims` runs of a batch share one initial seeding —
`init_func` executes once per batch, consuming only the first seeding draw,
and every run `r < num_sims` starts from that same initial PopulationState. -/
theorem batch_start_shared (num_nodes num_sims : ℕ) (seedDraws : ℕ → List ℕ)
    (r : ℕ) (hr : r < num_sims) :
    (run_sim_batch_starts num_nodes num_sims seedDraws).getD r [] =
      seirInit num_nodes (seedDraws 0) := by
  unfold run_sim_batch_starts
  rw [List.getD_eq_getElem _ _ (by simpa using hr)]
  simp

theorem batch_start_shared_witness :
    (run_sim_batch_starts 2 2 (fun k => if k = 0 then [0] else [1])).getD 1 [] =
      seirInit 2 [0] :=
  batch_start_shared 2 2 (fun k => if k = 0 then [0] else [1]) 1 (by decide)

/-- C7 (amended): the single-run simulator fails — returns no history at all —
exactly when the step count is negative (`np.zeros` raises before any step
executes); it performs no validation of the initial state's compartments. -/
theorem simulate_none_iff (matrix : List (List ℚ)) (starting_seir : List Row)
    (num_steps : Int) (dis : Disease) (probs : ℕ → List ℚ) :
    simulate matrix starting_seir num_steps dis probs = none ↔ num_steps < 0 := by
  unfold simulate
  split_ifs with h
  · simp [h]
  · simp [h]

/-- C7 counterexample: `_simulate` happily simulates malformed initial states.
With `T = 1` it returns a full history both for a node in *no* compartment
(row `⟨0,0,0,0⟩`, which merely stays all-zero) and for a node in *two*
compartments (row `⟨0,1,1,0⟩`, which one step turns into the corrupt
Infectious-and-Removed row `⟨0,0,1,1⟩`) — refuting the claim that such states
make the run fail with no history. -/
theorem simulate_no_state_validation :
    ¬ wellFormedRow ⟨0, 0, 0, 0⟩ ∧
    simulate [[0]] [⟨0, 0, 0, 0⟩] 1 ⟨0, 0, 0⟩ (fun _ => [0]) = some [[⟨0, 0, 0, 0⟩]] ∧
    ¬ wellFormedRow ⟨0, 1, 1, 0⟩ ∧
    simulate [[0]] [⟨0, 1, 1, 0⟩] 1 ⟨0, 0, 0⟩ (fun _ => [0]) = some [[⟨0, 0, 1, 1⟩]] := by
  decide

/-- C8 counterexample: `np.random.randint` draws with replacement — the draw
list `[1, 1]` has length 2 (a requested `k = 2`) yet seeds only one node
Infectious among 3, leaving 2 Susceptible, refuting "exactly k Infectious and
N − k Susceptible". -/
theorem seirInit_duplicate_draws :
    ([1, 1] : List ℕ).length = 2 ∧
    ((seirInit 3 [1, 1]).filter (fun n => 0 < n.i)).length = 1 ∧
    ((seirInit 3 [1, 1]).filter (fun n => 0 < n.s)).length = 2 := by
  decide

theorem filter_length_split (f : ℕ → Bool) :
    ∀ L : List ℕ, (L.filter f).length + (L.filter (fun x => !(f x))).length = L.length := by
  intro L
  induction L with
  | nil => rfl
  | cons x xs ih =>
    by_cases hx : f x <;> simp [List.filter_cons, hx] <;> omega

theorem range_filter_mem_card (n : ℕ) (l : List ℕ) (h : ∀ x ∈ l, x < n) :
    ((List.range n).filter (fun x => decide (x ∈ l))).length = l.toFinset.card := by
  have nd : ((List.range n).filter (fun x => decide (x ∈ l))).Nodup :=
    (List.nodup_range n).filter _
  rw [← List.toFinset_card_of_nodup nd]
  congr 1
  ext x
  simp only [List.mem_toFinset, List.mem_filter, List.mem_range, decide_eq_true_eq]
  exact ⟨fun a => a.2, fun a => ⟨h x a, a⟩⟩

/-- C8 (amended): the seeding produces exactly one Infectious node (day 1) per
*distinct* drawn index — `to_infect.toFinset.card` of them, which is the
requested `k` only when the `k` draws happen to be distinct — and
`N − to_infect.toFinset.card` Susceptible nodes (day 1); every row is one of
the two day-1 unit rows. -/
theorem seirInit_counts (num_nodes : ℕ) (to_infect : List ℕ)
    (h : ∀ x ∈ to_infect, x < num_nodes) :
    ((seirInit num_nodes to_infect).filter (fun n => 0 < n.i)).length =
      to_infect.toFinset.card ∧
    ((seirInit num_nodes to_infect).filter (fun n => 0 < n.s)).length =
      num_nodes - to_infect.toFinset.card ∧
    ∀ row ∈ seirInit num_nodes to_infect, row = ⟨0, 0, 1, 0⟩ ∨ row = ⟨1, 0, 0, 0⟩ := by
  have hI : ((seirInit num_nodes to_infect).filter (fun n => 0 < n.i)).length =
      ((List.range num_nodes).filter (fun x => decide (x ∈ to_infect))).length := by
    unfold seirInit
    rw [List.filter_map, List.length_map]
    congr 1
    apply List.filter_congr
    intro x _
    by_cases hx : x ∈ to_infect <;> simp [hx]
  have hS : ((seirInit num_nodes to_infect).filter (fun n => 0 < n.s)).length =
      ((List.range num_nodes).filter (fun x => !(decide (x ∈ to_infect)))).length := by
    unfold seirInit
    rw [List.filter_map, List.length_map]
    congr 1
    apply List.filter_congr
    intro x _
    by_cases hx : x ∈ to_infect <;> simp [hx]
  refine ⟨by rw [hI]; exact range_filter_mem_card num_nodes to_infect h, ?_, ?_⟩
  · rw [hS]
    have hsplit := filter_length_split (fun x => decide (x ∈ to_infect)) (List.range num_nodes)
    rw [List.length_range] at hsplit
    have := range_filter_mem_card num_nodes to_infect h
    omega
  · intro row hrow
    obtain ⟨x, _, hEq⟩ := List.mem_map.mp hrow
    by_cases hx : x ∈ to_infect
    · left; rw [← hEq]; simp [hx]
    · right; rw [← hEq]; simp [hx]

theorem seirInit_counts_witness :
    ((seirInit 3 [1, 1]).filter (fun n => 0 < n.i)).length =
      ([1, 1] : List ℕ).toFinset.card ∧
    ((seirInit 3 [1, 1]).filter (fun n => 0 < n.s)).length =
      3 - ([1, 1] : List ℕ).toFinset.card :=
  ⟨(seirInit_counts 3 [1, 1] (by decide)).1, (seirInit_counts 3 [1, 1] (by decide)).2.1⟩

theorem length_pos_of_ne_empty (s : String) (h : s ≠ "") : 0 < s.length := by
  cases s with
  | mk d =>
    cases d with
    | nil => exact absurd rfl h
    | cons c cs => simp [String.length]

theorem join_cons (x : String) (l : List String) :
    String.join (x :: l) = x ++ String.join l := by
  apply String.ext
  simp [String.join_eq, String.data_append]

theorem join_append (a b : List String) :
    String.join (a ++ b) = String.join a ++ String.join b := by
  apply String.ext
  simp [String.join_eq, String.data_append]

theorem linesToStr_append (a b : List String) :
    linesToStr (a ++ b) = linesToStr a ++ linesToStr b := by
  unfold linesToStr
  rw [List.map_append, join_append]

theorem linesToStr_cons (x : String) (l : List String) :
    linesToStr (x :: l) = (x ++ "\n") ++ linesToStr l := by
  unfold linesToStr
  rw [List.map_cons, join_cons]

theorem linesToStr_nil : linesToStr [] = "" := rfl

theorem nodeLine_ne_empty (node code : ℕ) : nodeLine node code ≠ "" := by
  intro h
  have hd := congrArg String.data h
  simp [nodeLine, String.data_append] at hd

theorem joinNL_cons_cons (x y : String) (l : List String) :
    joinNL (x :: y :: l) = x ++ "\n" ++ joinNL (y :: l) := rfl

theorem joinNL_pos (x : String) (xs : List String) (hx : x ≠ "") :
    0 < (joinNL (x :: xs)).length := by
  cases xs with
  | nil => exact length_pos_of_ne_empty x hx
  | cons y rest =>
    rw [joinNL_cons_cons]
    rw [String.length_append, String.length_append]
    have := length_pos_of_ne_empty x hx
    omega

theorem groupChunk_eq (l : List String) (h : ∀ x ∈ l, x ≠ "") :
    groupChunk l = linesToStr l := by
  induction l with
  | nil => rfl
  | cons x xs ih =>
    have hx : x ≠ "" := h x (by simp)
    cases xs with
    | nil =>
      unfold groupChunk
      rw [if_pos (joinNL_pos x [] hx)]
      rw [linesToStr_cons, linesToStr_nil, String.append_empty]
      rfl
    | cons y rest =>
      have hy : y ≠ "" := h y (by simp)
      have htail : groupChunk (y :: rest) = linesToStr (y :: rest) :=
        ih (fun z hz => h z (List.mem_cons_of_mem x hz))
      have htail' : linesToStr (y :: rest) = joinNL (y :: rest) ++ "\n" := by
        rw [← htail]
        unfold groupChunk
        rw [if_pos (joinNL_pos y rest hy)]
      unfold groupChunk
      rw [if_pos (by rw [joinNL_cons_cons, String.length_append, String.length_append]
                     have := length_pos_of_ne_empty x hx
                     omega)]
      rw [joinNL_cons_cons, linesToStr_cons, htail']
      rw [String.append_assoc, String.append_assoc]

theorem stepBlockStr_eq (st : List Row) :
    stepBlockStr st = linesToStr (specStepLines st) := by
  have hg : ∀ (col : Row → Int) (code : ℕ),
      groupChunk ((groupNodes st col).map (fun n => nodeLine n code)) =
        linesToStr ((groupNodes st col).map (fun n => nodeLine n code)) := by
    intro col code
    apply groupChunk_eq
    intro x hx
    obtain ⟨n, _, hEq⟩ := List.mem_map.mp hx
    rw [← hEq]
    exact nodeLine_ne_empty n code
  unfold stepBlockStr specStepLines
  rw [hg, hg, hg, hg]
  rw [linesToStr_append, linesToStr_append, linesToStr_append, linesToStr_append]
  rw [show linesToStr [""] = "\n" from rfl]

/-- C9: the serializer's output is exactly the line sequence the spec
describes — for each step in order, the Susceptible nodes, then Exposed, then
Infectious, then Removed, one `<nodeIndex> <compartmentCode>` line per node
with codes S=0, E=1, I=2, R=3, empty groups emitting no lines, a blank line
closing each step's block, and a single terminating sentinel line `end`. -/
theorem make_visualization_str_spec (seirs : List (List Row)) :
    make_visualization_str seirs = specVisStr seirs := by
  unfold make_visualization_str specVisStr
  rw [linesToStr_append]
  rw [show linesToStr ["end"] = "end\n" from rfl]
  congr 1
  induction seirs with
  | nil => rfl
  | cons st rest ih =>
    rw [List.map_cons, join_cons, List.map_cons, List.flatten_cons, linesToStr_append,
      ih, stepBlockStr_eq]

theorem simLoop_data_other (matrix : List (List ℚ)) (dis : Disease)
    (probs : ℕ → List ℚ) (seirAddr : ℕ) :
    ∀ (slices : List ℕ) (t : ℕ) (h : Heap) (a : ℕ), a ≠ seirAddr → a ∉ slices →
      (simLoop matrix dis probs seirAddr t slices h).data a = h.data a := by
  intro slices
  induction slices with
  | nil => intro t h a _ _; rfl
  | cons sa rest ih =>
    intro t h a ha hs
    have hasa : a ≠ sa := fun hEq => hs (hEq ▸ List.mem_cons_self sa rest)
    rw [simLoop]
    rw [ih (t + 1) _ a ha (fun hmem => hs (List.mem_cons_of_mem sa hmem))]
    simp [heapWrite, ha, hasa]

theorem simLoop_slices (matrix : List (List ℚ)) (dis : Disease)
    (probs : ℕ → List ℚ) (seirAddr : ℕ) (σ : List Row) :
    ∀ (slices : List ℕ) (t : ℕ) (h : Heap), slices.Nodup → seirAddr ∉ slices →
      h.data seirAddr = simulateFrom matrix dis probs σ t →
      ∀ k, k < slices.length →
        (simLoop matrix dis probs seirAddr t slices h).data (slices.getD k 0) =
          simulateFrom matrix dis probs σ (t + k + 1) := by
  intro slices
  induction slices with
  | nil => intro t h _ _ _ k hk; simp at hk
  | cons sa rest ih =>
    intro t h hnd hsa hseir k hk
    have hne : sa ≠ seirAddr := fun hEq => hsa (hEq ▸ List.mem_cons_self sa rest)
    have hsa_rest : sa ∉ rest := (List.nodup_cons.mp hnd).1
    have hrest_nd : rest.Nodup := (List.nodup_cons.mp hnd).2
    have hsa_rest' : seirAddr ∉ rest := fun hmem => hsa (List.mem_cons_of_mem sa hmem)
    rw [simLoop]
    set h1 := heapWrite h seirAddr (step matrix dis (probs t) (h.data seirAddr)) with hh1
    set h2 := heapWrite h1 sa (h1.data seirAddr) with hh2
    have h1seir : h1.data seirAddr = simulateFrom matrix dis probs σ (t + 1) := by
      rw [hh1]
      show (if seirAddr = seirAddr then _ else _) = _
      rw [if_pos rfl, hseir]
      rfl
    have h2seir : h2.data seirAddr = simulateFrom matrix dis probs σ (t + 1) := by
      rw [hh2]
      show (if seirAddr = sa then _ else _) = _
      rw [if_neg hne.symm]
      exact h1seir
    have h2sa : h2.data sa = simulateFrom matrix dis probs σ (t + 1) := by
      rw [hh2]
      show (if sa = sa then _ else _) = _
      rw [if_pos rfl]
      exact h1seir
    cases k with
    | zero =>
      show (simLoop matrix dis probs seirAddr (t + 1) rest h2).data sa = _
      rw [simLoop_data_other matrix dis probs seirAddr rest (t + 1) h2 sa hne hsa_rest]
      rw [h2sa]
    | succ k =>
      show (simLoop matrix dis probs seirAddr (t + 1) rest h2).data (rest.getD k 0) = _
      have hk' : k < rest.length := by simpa using hk
      have := ih (t + 1) h2 hrest_nd hsa_rest' h2seir k hk'
      rw [this]
      congr 1
      omega

theorem allocSlices_spec (v : List Row) :
    ∀ (n : ℕ) (h : Heap),
      (allocSlices h v n).1 = List.range' h.next n ∧
      (allocSlices h v n).2.next = h.next + n ∧
      ∀ a, a < h.next → (allocSlices h v n).2.data a = h.data a := by
  intro n
  induction n with
  | zero => intro h; exact ⟨rfl, rfl, fun a _ => rfl⟩
  | succ n ih =>
    intro h
    obtain ⟨h1, h2, h3⟩ := ih (heapAlloc h v).2
    refine ⟨?_, ?_, ?_⟩
    · show h.next :: (allocSlices (heapAlloc h v).2 v n).1 = List.range' h.next (n + 1)
      rw [h1, List.range'_succ]
      rfl
    · show (allocSlices (heapAlloc h v).2 v n).2.next = h.next + (n + 1)
      rw [h2]
      show h.next + 1 + n = h.next + (n + 1)
      omega
    · intro a ha
      show (allocSlices (heapAlloc h v).2 v n).2.data a = h.data a
      rw [h3 a (by show a < h.next + 1; omega)]
      show (if a = h.next then v else h.data a) = h.data a
      rw [if_neg (by omega)]

/-- C10: the run does not mutate the caller's array and snapshots are stable —
over the store model of `_simulate`, for any already-allocated `startAddr`,
after the call the array at `startAddr` still holds exactly its old contents
(`seir = np.copy(starting_seir)` works on a fresh copy), and the history slice
of step `t` holds the state after `t + 1` pure steps — written once at step `t`
and never modified by the later steps of the loop. -/
theorem simulateMem_no_mutation (matrix : List (List ℚ)) (dis : Disease)
    (probs : ℕ → List ℚ) (h0 : Heap) (startAddr num_steps : ℕ)
    (hval : startAddr < h0.next) :
    (simulateMem matrix dis probs h0 startAddr num_steps).1.data startAddr =
      h0.data startAddr ∧
    ∀ t, t < num_steps →
      (simulateMem matrix dis probs h0 startAddr num_steps).1.data
          ((simulateMem matrix dis probs h0 startAddr num_steps).2.getD t 0) =
        simulateFrom matrix dis probs (h0.data startAddr) (t + 1) := by
  obtain ⟨hp1, hp2, hp3⟩ :=
    allocSlices_spec (List.replicate (h0.data startAddr).length ⟨0, 0, 0, 0⟩)
      num_steps h0
  set v := List.replicate (h0.data startAddr).length (⟨0, 0, 0, 0⟩ : Row) with hv_def
  set p := allocSlices h0 v num_steps with hp_def
  have hbounds : ∀ a ∈ p.1, h0.next ≤ a ∧ a < h0.next + num_steps := by
    rw [hp1]
    intro a ha
    simpa using List.mem_range'_1.mp ha
  have hnd : p.1.Nodup := by rw [hp1]; exact List.nodup_range' _ _
  have hseir_eq : (heapAlloc p.2 (p.2.data startAddr)).1 = h0.next + num_steps := by
    show p.2.next = h0.next + num_steps
    exact hp2
  have hstart_ne : startAddr ≠ (heapAlloc p.2 (p.2.data startAddr)).1 := by
    rw [hseir_eq]; omega
  have hstart_nmem : startAddr ∉ p.1 := fun hmem => by
    have := hbounds startAddr hmem; omega
  have hseir_nmem : (heapAlloc p.2 (p.2.data startAddr)).1 ∉ p.1 := fun hmem => by
    have := hbounds _ hmem
    rw [hseir_eq] at hmem
    have := hbounds _ hmem
    omega
  have hcopy : p.2.data startAddr = h0.data startAddr := hp3 startAddr hval
  have hq_start : (heapAlloc p.2 (p.2.data startAddr)).2.data startAddr =
      h0.data startAddr := by
    show (if startAddr = p.2.next then _ else p.2.data startAddr) = _
    rw [if_neg (by rw [hp2]; omega)]
    exact hcopy
  have hq_seir : (heapAlloc p.2 (p.2.data startAddr)).2.data
      (heapAlloc p.2 (p.2.data startAddr)).1 = h0.data startAddr := by
    show (if p.2.next = p.2.next then p.2.data startAddr else _) = _
    rw [if_pos rfl]
    exact hcopy
  constructor
  · show (simLoop matrix dis probs (heapAlloc p.2 (p.2.data startAddr)).1 0 p.1
        (heapAlloc p.2 (p.2.data startAddr)).2).data startAddr = _
    rw [simLoop_data_other matrix dis probs _ p.1 0 _ startAddr hstart_ne hstart_nmem]
    exact hq_start
  · intro t ht
    have hlen : t < p.1.length := by rw [hp1]; simpa using ht
    have := simLoop_slices matrix dis probs (heapAlloc p.2 (p.2.data startAddr)).1
      (h0.data startAddr) p.1 0 (heapAlloc p.2 (p.2.data startAddr)).2 hnd hseir_nmem
      (by rw [hq_seir]; rfl) t hlen
    show (simLoop matrix dis probs (heapAlloc p.2 (p.2.data startAddr)).1 0 p.1
        (heapAlloc p.2 (p.2.data startAddr)).2).data (p.1.getD t 0) = _
    rw [this]
    congr 1
    omega

theorem simulateMem_no_mutation_witness :
    (simulateMem [[0]] ⟨0, 0, 0⟩ (fun _ => [0])
        ⟨fun _ => [⟨0, 0, 1, 0⟩], 1⟩ 0 1).1.data 0 =
      (⟨fun _ => [⟨0, 0, 1, 0⟩], 1⟩ : Heap).data 0 ∧
    (simulateMem [[0]] ⟨0, 0, 0⟩ (fun _ => [0])
        ⟨fun _ => [⟨0, 0, 1, 0⟩], 1⟩ 0 1).1.data
        ((simulateMem [[0]] ⟨0, 0, 0⟩ (fun _ => [0])
          ⟨fun _ => [⟨0, 0, 1, 0⟩], 1⟩ 0 1).2.getD 0 0) =
      simulateFrom [[0]] ⟨0, 0, 0⟩ (fun _ => [0])
        ((⟨fun _ => [⟨0, 0, 1, 0⟩], 1⟩ : Heap).data 0) (0 + 1) :=
  ⟨(simulateMem_no_mutation [[0]] ⟨0, 0, 0⟩ (fun _ => [0])
      ⟨fun _ => [⟨0, 0, 1, 0⟩], 1⟩ 0 1 (by decide)).1,
   (simulateMem_no_mutation [[0]] ⟨0, 0, 0⟩ (fun _ => [0])
      ⟨fun _ => [⟨0, 0, 1, 0⟩], 1⟩ 0 1 (by decide)).2 0 (by decide)⟩

/-- C1 (code bug): on a batch of `M = 1` run, `T = 1` step, over `N = 2`
isolated nodes with transmission probability 0 and no seeded infections, every
node stays Susceptible, so the claimed statistic (mean of count-of-Susceptible
at the final step ÷ N) is `(2/2)/1 = 1`; but `_find_num_susceptible_nodes`
evaluates `np.sum(seirs[:, State.S.value, -1] > 0)` — the number of steps at
which *node 0* is *Removed* (the node and compartment axes are transposed) —
which is `0` here, and `run_sim_batch` returns `0`, not `1`. -/
theorem run_sim_batch_wrong_statistic :
    run_sim_batch [[0, 0], [0, 0]] ⟨0, 0, 0⟩ 1 1 [] (fun _ _ => [1/2, 1/2]) = some 0 ∧
    find_num_susceptible_nodes
      (simHistory [[0, 0], [0, 0]] ⟨0, 0, 0⟩ (fun _ => [1/2, 1/2]) (seirInit 2 []) 1) = 0 ∧
    susceptibleAtFinal
      (simHistory [[0, 0], [0, 0]] ⟨0, 0, 0⟩ (fun _ => [1/2, 1/2]) (seirInit 2 []) 1) = 2 ∧
    ((susceptibleAtFinal
      (simHistory [[0, 0], [0, 0]] ⟨0, 0, 0⟩ (fun _ => [1/2, 1/2]) (seirInit 2 []) 1) : ℚ)
        / 2 / 1 = 1) := by
  refine ⟨?_, ?_, ?_, ?_⟩ <;>
    norm_num [run_sim_batch, find_num_susceptible_nodes, susceptibleAtFinal, simHistory,
      simulateFrom, step, pExpose, ruleIR, ruleEI, incRow, incVal, seirInit,
      show List.range 1 = [0] from rfl, show List.range 2 = [0, 1] from rfl]

end IrnTui
